import Mathlib

/-!
Shallow embedding of the WebVTT parser (`src/lib.rs`) together with proofs
about the properties of its specification.

Modelling conventions:
* Rust `&str` / `String` values are modelled as `List Char`; the embedding
  keeps the byte-exact splitting and slicing behaviour of the source at the
  level of characters.
* Rust `u64` values are modelled as `Nat` together with explicit `< 2 ^ 64`
  checks at the two points where the source can abort on overflow: the
  `str::parse::<u64>().unwrap()` of the hours field (lib.rs line 260) and
  the checked millisecond arithmetic feeding `Duration::from_millis`
  (lib.rs line 360).
* Abnormal termination (the `unimplemented!` invocations in `parse_block`,
  an `unwrap` failure, arithmetic overflow, the `unreachable!` arm of
  `parse_timestamp`) is modelled by the `Panic` type carried in an
  `Except Panic` result.
* `Duration` values are represented by their total number of milliseconds,
  which is exactly the quantity `Duration::from_millis` receives.
-/

namespace WebVTT

/-- The number of values of Rust's `u64`, that is `2 ^ 64`. -/
def U64 : Nat := 18446744073709551616

/-- The character list underlying a string literal. -/
def strChars (s : String) : List Char := s.toList

/-- Document-fatal parse errors, lib.rs lines 8-18. -/
inductive Error where
  | NoMagic
  | BadHeader
  | UnexpectedEof
deriving DecidableEq

/-- Abnormal terminations of a parse call.  `styleUnimplemented` and
`regionUnimplemented` model the two `unimplemented!` invocations at
lib.rs lines 159 and 163; `intOverflow` models an aborting
`parse::<u64>().unwrap()` or overflowing millisecond arithmetic in
`parse_timestamp`; `unreachableCode` models the `unreachable!` arm at
lib.rs line 365.  `fuelExhausted` is an artifact of the fuel-indexed
driver loop in this embedding and is proved unreachable. -/
inductive Panic where
  | styleUnimplemented
  | regionUnimplemented
  | intOverflow
  | unreachableCode
  | fuelExhausted
deriving DecidableEq

/-- Writing direction of a cue, lib.rs lines 46-61. -/
inductive WritingDirection where
  | Horizontal
  | VerticalLeft
  | VerticalRight
deriving DecidableEq

/-- Cue settings, lib.rs lines 40-44. -/
structure CueSettings where
  region : Option (List Char)
  writing_direction : WritingDirection
deriving DecidableEq

/-- A cue, lib.rs lines 31-38.  The field `end` of the source is spelled
`end_` because `end` is a Lean keyword.  Durations are in milliseconds. -/
structure Cue where
  start : Nat
  end_ : Nat
  id : List Char
  text : List Char
  settings : CueSettings
deriving DecidableEq

/-- A document block, lib.rs lines 26-29. -/
inductive Block where
  | Cue : Cue → Block
deriving DecidableEq

/-- A parsed document, lib.rs lines 20-24. -/
structure File where
  description : Option (List Char)
  blocks : List Block
deriving DecidableEq

/-- File-level parser context, lib.rs lines 63-66.  `parse_file` creates it
with both flags `false` and no code path ever mutates it (notably,
`seen_cue` is never set to `true`), so the embedding passes it by value. -/
structure FileContext where
  seen_cue : Bool
  in_header : Bool
deriving DecidableEq

/-- Per-block parser context, lib.rs lines 106-112. -/
structure BlockContext where
  line_count : Nat
  seen_eof : Bool
  seen_arrow : Bool
  cue : Option Cue
  buffer : List Char
deriving DecidableEq

/-- The result of a `parse_file` call: a `File`, a returned `Error`, or an
abnormal termination. -/
inductive Outcome (α : Type) where
  | ok : α → Outcome α
  | err : Error → Outcome α
  | panic : Panic → Outcome α
deriving DecidableEq

/-- Whether an outcome is a returned error value. -/
def Outcome.isErr {α : Type} : Outcome α → Bool
  | .err _ => true
  | _ => false

/-- Whether an outcome is the returned error `UnexpectedEof`. -/
def Outcome.isUnexpectedEof {α : Type} : Outcome α → Bool
  | .err .UnexpectedEof => true
  | _ => false

/-- Whether an outcome is the fuel-exhaustion artifact of this embedding
(proved impossible for `parse_file`). -/
def Outcome.isFuelPanic {α : Type} : Outcome α → Bool
  | .panic .fuelExhausted => true
  | _ => false

/-- Rust `str::split(sep)` at the character level: splitting never yields an
empty list of pieces (splitting the empty string yields one empty piece). -/
def splitOnChar (sep : Char) : List Char → List (List Char)
  | [] => [[]]
  | c :: rest =>
    match splitOnChar sep rest with
    | [] => [[]]
    | l :: ls => if c == sep then [] :: l :: ls else (c :: l) :: ls

/-- Rust `str::strip_prefix(pat)` at the character level; first argument is
the pattern. -/
def stripPrefixList : List Char → List Char → Option (List Char)
  | [], s => some s
  | _ :: _, [] => none
  | p :: ps, c :: cs => if c == p then stripPrefixList ps cs else none

/-- Rust `str::starts_with(pat)`; first argument is the pattern. -/
def startsWithList : List Char → List Char → Bool
  | [], _ => true
  | _ :: _, [] => false
  | p :: ps, c :: cs => c == p && startsWithList ps cs

/-- Rust `line.contains("-->")`, lib.rs line 131: some suffix of the line
starts with the three characters of the arrow token. -/
def containsArrow : List Char → Bool
  | [] => false
  | c :: rest => startsWithList (strChars "-->") (c :: rest) || containsArrow rest

/-- The code points with the Unicode `White_Space` property, which is the
set recognised by Rust's `char::is_whitespace`. -/
def rustWhitespace : List Nat :=
  [9, 10, 11, 12, 13, 32, 133, 160, 5760,
   8192, 8193, 8194, 8195, 8196, 8197, 8198, 8199, 8200, 8201, 8202,
   8232, 8233, 8239, 8287, 12288]

/-- Rust `char::is_whitespace`. -/
def isRustWhitespace (c : Char) : Bool := rustWhitespace.contains c.toNat

/-- Rust `str::trim_start`. -/
def trimStart : List Char → List Char
  | [] => []
  | c :: rest => if isRustWhitespace c then trimStart rest else c :: rest

/-- Rust `str::split_once(sep)` for a single-character separator `sep`,
lib.rs line 205: split at the first colon. -/
def splitOnceColon : List Char → Option (List Char × List Char)
  | [] => none
  | c :: rest =>
    if c == ':' then some ([], rest)
    else (splitOnceColon rest).map (fun p => (c :: p.1, p.2))

/-- One digit-reading loop of `parse_timestamp` (lib.rs lines 244-253,
272-281, 302-311): consume a maximal run of ASCII digits, and return the
digits read, the character that terminated the run, and the input after
that character.  Reaching the end of input before a non-digit terminator
is a failure (the `chars.next()?` in the source). -/
def readDigits : List Char → Option (List Char × Char × List Char)
  | [] => none
  | c :: rest =>
    if c.isDigit then (readDigits rest).map (fun t => (c :: t.1, t.2.1, t.2.2))
    else some ([], c, rest)

/-- The final digit-reading loop of `parse_timestamp` (lib.rs lines
335-348), where end of input is permitted: consume a maximal run of ASCII
digits and return the digits together with the rest of the input starting
at the first non-digit character (`&line[last_idx..]` in the source). -/
def readDigitsEof : List Char → List Char × List Char
  | [] => ([], [])
  | c :: rest =>
    if c.isDigit then
      let t := readDigitsEof rest
      (c :: t.1, t.2)
    else ([], c :: rest)

/-- Value of a run of ASCII digits, as computed by `str::parse::<u64>` on a
digit-only string (before the `u64` range check). -/
def digitsToNat (ds : List Char) : Nat :=
  ds.foldl (fun n c => 10 * n + (c.toNat - 48)) 0

/-- The ASCII digit character with value `n` (for `n < 10`). -/
def dchar (n : Nat) : Char := Char.ofNat (48 + n)

/-- The canonical two-digit rendering of `m < 100`. -/
def pad2 (m : Nat) : List Char := [dchar (m / 10), dchar (m % 10)]

/-- The canonical three-digit rendering of `m < 1000`. -/
def pad3 (m : Nat) : List Char := [dchar (m / 100), dchar (m / 10 % 10), dchar (m % 10)]

/-- Shared tail of `parse_timestamp`, lib.rs lines 329-368: require the
fractional-seconds marker, read exactly three millisecond digits, then
combine the collected places.  The `u64` sum fed to
`Duration::from_millis` is checked against `2 ^ 64` (debug-build overflow
check of the source); the catch-all arm models the `unreachable!` at
lib.rs line 365. -/
def finishTs (places : List Nat) (lastChar : Char) (rest : List Char) :
    Except Panic (Option (Nat × List Char)) :=
  if lastChar != '.' then .ok none
  else
    let t := readDigitsEof rest
    if t.1.length != 3 then .ok none
    else
      match places ++ [digitsToNat t.1] with
      | [hours, minutes, seconds, millis] =>
        let total := millis + seconds * 1000 + minutes * 60000 + hours * 3600000
        if U64 ≤ total then .error .intOverflow else .ok (some (total, t.2))
      | [minutes, seconds, millis] =>
        let total := millis + seconds * 1000 + minutes * 60000
        if U64 ≤ total then .error .intOverflow else .ok (some (total, t.2))
      | _ => .error .unreachableCode

/-- `parse_timestamp`, lib.rs lines 235-369.  Returns `.ok none` where the
source returns `None`, `.ok (some (ms, rest))` where it returns a duration
of `ms` milliseconds and the unconsumed remainder `rest`, and
`.error .intOverflow` where `parse::<u64>().unwrap()` aborts on a first
field whose value does not fit in a `u64`.  The second and third fields
are exactly two digits, so their `parse` cannot overflow and no check is
emitted for them. -/
def parse_timestamp (line : List Char) : Except Panic (Option (Nat × List Char)) :=
  match readDigits line with
  | none => .ok none
  | some (buf1, c1, rest1) =>
    -- lib.rs 256: if there were no digits, or the run was not ended by a colon, fail
    if buf1.isEmpty || c1 != ':' then .ok none
    else if U64 ≤ digitsToNat buf1 then .error .intOverflow
    else
      let n1 := digitsToNat buf1
      -- lib.rs 265: this first place can only be an hours field when its
      -- value exceeds 59 or its digit count is not exactly 2
      let has_hours : Bool := decide (59 < n1) || decide (buf1.length ≠ 2)
      match readDigits rest1 with
      | none => .ok none
      | some (buf2, c2, rest2) =>
        if buf2.length != 2 then .ok none
        else if 59 < digitsToNat buf2 then .ok none
        -- lib.rs 300: a third 2-digit field is read when an hours place is
        -- known to be present or the previous run ended at another colon
        else if has_hours || c2 == ':' then
          match readDigits rest2 with
          | none => .ok none
          | some (buf3, c3, rest3) =>
            if buf3.length != 2 then .ok none
            else if 59 < digitsToNat buf3 then .ok none
            else finishTs [n1, digitsToNat buf2, digitsToNat buf3] c3 rest3
        else finishTs [n1, digitsToNat buf2] c2 rest2

/-- One token step of `parse_settings`, lib.rs lines 204-222. -/
def applySetting (s : CueSettings) (tok : List Char) : CueSettings :=
  match splitOnceColon tok with
  | none => s
  | some (key, value) =>
    if key.isEmpty || value.isEmpty then s
    else if key = strChars "region" then { s with region := some value }
    else if key = strChars "vertical" then
      if value = strChars "lr" then { s with writing_direction := .VerticalLeft }
      else if value = strChars "rl" then { s with writing_direction := .VerticalRight }
      else s
    else s

/-- The settings accumulated by the token loop of `parse_settings`
(lib.rs lines 198-222), before the vertical-clears-region post-pass. -/
def settingsAccum (line : List Char) : CueSettings :=
  (splitOnChar ' ' line).foldl applySetting
    { region := none, writing_direction := .Horizontal }

/-- `parse_settings`, lib.rs lines 198-230, including the post-pass at
lines 224-227: there are no vertical regions. -/
def parse_settings (line : List Char) : CueSettings :=
  let s := settingsAccum line
  if s.writing_direction ≠ .Horizontal then { s with region := none } else s

/-- The region value a settings token stores, if any: tokens with a colon,
a non-empty key equal to `region` and a non-empty value (lib.rs lines
205-213). -/
def regionVal (tok : List Char) : Option (List Char) :=
  match splitOnceColon tok with
  | none => none
  | some (key, value) =>
    if key.isEmpty || value.isEmpty then none
    else if key = strChars "region" then some value
    else none

/-- The writing direction a settings token stores, if any: tokens with a
colon, the key `vertical` and value `lr` or `rl` (lib.rs lines 214-218). -/
def vertVal (tok : List Char) : Option WritingDirection :=
  match splitOnceColon tok with
  | none => none
  | some (key, value) =>
    if key.isEmpty || value.isEmpty then none
    else if key = strChars "region" then none
    else if key = strChars "vertical" then
      if value = strChars "lr" then some .VerticalLeft
      else if value = strChars "rl" then some .VerticalRight
      else none
    else none

/-- `parse_cue_timings_settings`, lib.rs lines 184-196. -/
def parse_cue_timings_settings (line : List Char) :
    Except Panic (Option (Nat × Nat × CueSettings)) :=
  match parse_timestamp (trimStart line) with
  | .error p => .error p
  | .ok none => .ok none
  | .ok (some (start_time, rest)) =>
    match stripPrefixList (strChars "-->") (trimStart rest) with
    | none => .ok none
    | some rest =>
      match parse_timestamp (trimStart rest) with
      | .error p => .error p
      | .ok none => .ok none
      | .ok (some (end_time, rest)) =>
        .ok (some (start_time, end_time, parse_settings rest))

/-- Concatenation of a line onto the block buffer, lib.rs lines 168-172:
a newline separator is inserted when the buffer is already non-empty. -/
def appendLine (buf line : List Char) : List Char :=
  if buf.isEmpty then line else buf ++ '\n' :: line

/-- The branch structure of the per-line loop body of `parse_block`
(lib.rs lines 131-173), applied after the bookkeeping updates of lines
128-129 (see `blockStep`): here `bctx.line_count` is already the 1-based
index of `line` inside the block.  The returned `Bool` is `true` when the
loop breaks on a blank line.  The source sets `seen_arrow = true` before
attempting the timing parse, so both non-aborting arms of the timing
attempt carry `seen_arrow := true`. -/
def blockStepCore (fctx : FileContext) (bctx : BlockContext) (line : List Char) :
    Except Panic (BlockContext × Bool) :=
  if containsArrow line then
    -- lib.rs 131-152: a potential timing line
    if !fctx.in_header then
      if bctx.line_count == 1 || (bctx.line_count == 2 && !bctx.seen_arrow) then
        match parse_cue_timings_settings line with
        | .error p => .error p
        | .ok (some (s, e, st)) =>
          .ok ({ bctx with
                  seen_arrow := true,
                  buffer := [],
                  cue := some { start := s, end_ := e, id := bctx.buffer,
                                text := [], settings := st } }, false)
        | .ok none => .ok ({ bctx with seen_arrow := true }, false)
      else .ok (bctx, false)
    else .ok (bctx, false)
  else if line.isEmpty then
    -- lib.rs 153-154: a blank line ends the block
    .ok (bctx, true)
  else
    -- lib.rs 155-172: an ordinary text line
    if !fctx.in_header && bctx.line_count == 2 && !fctx.seen_cue then
      if startsWithList (strChars "STYLE") bctx.buffer then .error .styleUnimplemented
      else if startsWithList (strChars "REGION") bctx.buffer then .error .regionUnimplemented
      else .ok ({ bctx with buffer := appendLine bctx.buffer line }, false)
    else .ok ({ bctx with buffer := appendLine bctx.buffer line }, false)

/-- The body of the per-line loop of `parse_block`, lib.rs lines 127-174.
`isLast` is `lines.peek().is_none()` after taking the line (lib.rs line
129). -/
def blockStep (fctx : FileContext) (bctx : BlockContext) (line : List Char)
    (isLast : Bool) : Except Panic (BlockContext × Bool) :=
  blockStepCore fctx
    { bctx with line_count := bctx.line_count + 1, seen_eof := isLast } line

/-- The line-consuming loop of `parse_block` (`while let` at lib.rs line
127), returning the final block context and the lines left on the
cursor. -/
def parseBlockLoop (fctx : FileContext) (bctx : BlockContext) :
    List (List Char) → Except Panic (BlockContext × List (List Char))
  | [] => .ok (bctx, [])
  | line :: rest =>
    match blockStep fctx bctx line rest.isEmpty with
    | .error p => .error p
    | .ok (bctx', brk) =>
      if brk then .ok (bctx', rest) else parseBlockLoop fctx bctx' rest

/-- `parse_block`, lib.rs lines 114-182.  The source receives the cursor by
mutable reference; the embedding returns the unconsumed lines instead.
The source also receives `file_ctx` by mutable reference but never writes
to it, so no updated context is returned. -/
def parse_block (lines : List (List Char)) (fctx : FileContext) :
    Except Panic (Option Block × List (List Char)) :=
  match parseBlockLoop fctx
      { line_count := 0, seen_eof := false, seen_arrow := false,
        cue := none, buffer := [] } lines with
  | .error p => .error p
  | .ok (bctx, rest) =>
    match bctx.cue with
    | some cue => .ok (some (Block.Cue { cue with text := bctx.buffer }), rest)
    | none => .ok (none, rest)

/-- `skip_blank_lines`, lib.rs lines 371-384: drop leading empty lines. -/
def skip_blank_lines : List (List Char) → List (List Char)
  | [] => []
  | l :: rest => if l.isEmpty then skip_blank_lines rest else l :: rest

/-- `expect_str`, lib.rs lines 386-388. -/
def expect_str (input pat : List Char) (error : Error) : Except Error (List Char) :=
  match stripPrefixList pat input with
  | some rest => .ok rest
  | none => .error error

/-- `expect_char`, lib.rs lines 398-400: strip one leading character drawn
from the pattern set. -/
def expect_char (input : List Char) (pat : List Char) (error : Error) :
    Except Error (List Char) :=
  match input with
  | [] => .error error
  | c :: rest => if pat.contains c then .ok rest else .error error

/-- The description parse of `parse_file`, lib.rs lines 76-81. -/
def parseDescription (line : List Char) : Except Error (Option (List Char)) :=
  if 0 < line.length then
    match expect_char line [' ', '\t'] Error.BadHeader with
    | .error e => .error e
    | .ok rest => .ok (some rest)
  else .ok none

/-- The header phase of `parse_file`, lib.rs lines 71-81: split the input
into lines, demand the `WEBVTT` magic on the first line, and parse the
optional description.  `splitOnChar` never yields an empty list, so the
`[]` arm (the `ok_or(NoMagic)` of lib.rs line 73) is dead. -/
def parseHeader (input : List Char) :
    Except Error (Option (List Char) × List (List Char)) :=
  match splitOnChar '\n' input with
  | [] => .error Error.NoMagic
  | first :: restLines =>
    match expect_str first (strChars "WEBVTT") Error.NoMagic with
    | .error e => .error e
    | .ok line =>
      match parseDescription line with
      | .error e => .error e
      | .ok d => .ok (d, restLines)

/-- The block-iteration loop of `parse_file`, lib.rs lines 92-98, indexed
by fuel.  The driver calls it with fuel equal to the number of remaining
lines; `parse_block` consumes at least one line per call, so the
`fuelExhausted` arm is unreachable (proved below). -/
def parseBlocksFuel (fctx : FileContext) :
    Nat → List (List Char) → List Block → Except Panic (List Block)
  | _, [], acc => .ok acc
  | 0, _ :: _, _ => .error .fuelExhausted
  | fuel + 1, line :: rest, acc =>
    match parse_block (line :: rest) fctx with
    | .error p => .error p
    | .ok (some b, remaining) =>
      parseBlocksFuel fctx fuel (skip_blank_lines remaining) (acc ++ [b])
    | .ok (none, remaining) =>
      parseBlocksFuel fctx fuel (skip_blank_lines remaining) acc

/-- `parse_file`, lib.rs lines 68-104. -/
def parse_file (input : List Char) : Outcome File :=
  match parseHeader input with
  | .error e => .err e
  | .ok (description, restLines) =>
    match parseBlocksFuel { in_header := false, seen_cue := false }
        (skip_blank_lines restLines).length (skip_blank_lines restLines) [] with
    | .error p => .panic p
    | .ok blocks => .ok { description := description, blocks := blocks }

/-- The invariant of claim C8: non-horizontal settings carry no region. -/
def settingsInv (st : CueSettings) : Prop :=
  st.writing_direction ≠ .Horizontal → st.region = none

/-- The C8 invariant lifted to blocks. -/
def blockInv : Block → Prop
  | .Cue c => settingsInv c.settings

/-- The C8 invariant lifted to a candidate cue under construction. -/
def cueOptInv : Option Cue → Prop
  | none => True
  | some c => settingsInv c.settings

end WebVTT

namespace WebVTT

/-! ### Digit-run lemmas for the timestamp micro-parser -/

theorem dchar_isDigit {n : Nat} (h : n < 10) : (dchar n).isDigit = true := by
  interval_cases n <;> decide

theorem toNat_dchar {n : Nat} (h : n < 10) : (dchar n).toNat = 48 + n := by
  interval_cases n <;> decide

theorem readDigits_append {ds : List Char} (hds : ∀ c ∈ ds, c.isDigit = true)
    {b : Char} (hb : b.isDigit = false) (rest : List Char) :
    readDigits (ds ++ b :: rest) = some (ds, b, rest) := by
  induction ds with
  | nil => simp [readDigits, hb]
  | cons c cs ih =>
    have hc : c.isDigit = true := hds c (by simp)
    have ih' := ih (fun x hx => hds x (by simp [hx]))
    simp [readDigits, hc, ih']

theorem readDigitsEof_all {ds : List Char} (hds : ∀ c ∈ ds, c.isDigit = true) :
    readDigitsEof ds = (ds, []) := by
  induction ds with
  | nil => rfl
  | cons c cs ih =>
    have hc : c.isDigit = true := hds c (by simp)
    have ih' := ih (fun x hx => hds x (by simp [hx]))
    simp [readDigitsEof, hc, ih']

theorem pad2_digits {m : Nat} (h : m < 100) : ∀ c ∈ pad2 m, c.isDigit = true := by
  intro c hc
  have h1 : m / 10 < 10 := by omega
  have h2 : m % 10 < 10 := by omega
  simp only [pad2, List.mem_cons, List.not_mem_nil, or_false] at hc
  rcases hc with h' | h' <;> subst h'
  · exact dchar_isDigit h1
  · exact dchar_isDigit h2

theorem pad3_digits {m : Nat} (h : m < 1000) : ∀ c ∈ pad3 m, c.isDigit = true := by
  intro c hc
  have h1 : m / 100 < 10 := by omega
  have h2 : m / 10 % 10 < 10 := by omega
  have h3 : m % 10 < 10 := by omega
  simp only [pad3, List.mem_cons, List.not_mem_nil, or_false] at hc
  rcases hc with h' | h' | h' <;> subst h'
  · exact dchar_isDigit h1
  · exact dchar_isDigit h2
  · exact dchar_isDigit h3

theorem digitsToNat_pad2 {m : Nat} (h : m < 100) : digitsToNat (pad2 m) = m := by
  have h1 : m / 10 < 10 := by omega
  have h2 : m % 10 < 10 := by omega
  simp [digitsToNat, pad2, toNat_dchar h1, toNat_dchar h2]
  omega

theorem digitsToNat_pad3 {m : Nat} (h : m < 1000) : digitsToNat (pad3 m) = m := by
  have h1 : m / 100 < 10 := by omega
  have h2 : m / 10 % 10 < 10 := by omega
  have h3 : m % 10 < 10 := by omega
  simp [digitsToNat, pad3, toNat_dchar h1, toNat_dchar h2, toNat_dchar h3]
  omega

/-- Claim C7: for every two-field timestamp token `MM:SS.mmm` with `MM` and
`SS` exactly-2-digit values in `[0, 59]` and `mmm` exactly 3 digits, when
the token is the entire input `parse_timestamp` returns
`minutes * 60000 + seconds * 1000 + millis` milliseconds together with an
empty remainder. -/
theorem claim_C7 (m s ms : Nat) (hm : m ≤ 59) (hs : s ≤ 59) (hms : ms ≤ 999) :
    parse_timestamp (pad2 m ++ ':' :: (pad2 s ++ '.' :: pad3 ms)) =
      .ok (some (m * 60000 + s * 1000 + ms, [])) := by
  have hm' : m < 100 := by omega
  have hs' : s < 100 := by omega
  have hms' : ms < 1000 := by omega
  have h1 := readDigits_append (pad2_digits hm') (b := ':') (by decide)
    (pad2 s ++ '.' :: pad3 ms)
  have h2 := readDigits_append (pad2_digits hs') (b := '.') (by decide) (pad3 ms)
  have h3 := readDigitsEof_all (pad3_digits hms')
  simp only [parse_timestamp, h1, h2, digitsToNat_pad2 hm', digitsToNat_pad2 hs']
  have hml : ¬ (U64 ≤ m) := by simp only [U64]; omega
  have hno59 : ¬ (59 < m) := by omega
  have hno59s : ¬ (59 < s) := by omega
  simp only [pad2, List.isEmpty_cons, Bool.false_or, if_neg hml,
    decide_eq_false hno59, List.length_cons, List.length_nil]
  norm_num
  rw [if_neg hno59s, if_neg (show ¬('.' = ':') by decide)]
  simp only [finishTs, h3]
  have hlen : ((pad3 ms).length != 3) = false := by simp [pad3]
  have htot : ¬ (U64 ≤ ms + s * 1000 + m * 60000) := by simp only [U64]; omega
  have hcomm : ms + s * 1000 + m * 60000 = m * 60000 + s * 1000 + ms := by omega
  simp only [bne_self_eq_false, Bool.false_eq_true, if_false, hlen,
    List.cons_append, List.nil_append, digitsToNat_pad3 hms', if_neg htot, hcomm]
  rw [if_neg (show ¬ (U64 ≤ m * 60000 + s * 1000 + ms) by simp only [U64]; omega)]

/-- Witness for claim C7 at the concrete token `02:31.500`
(`2 * 60000 + 31 * 1000 + 500 = 151500`). -/
theorem claim_C7_witness :
    parse_timestamp (strChars "02:31.500") = .ok (some (151500, [])) := by
  have h := claim_C7 2 31 500 (by norm_num) (by norm_num) (by norm_num)
  have e : pad2 2 ++ ':' :: (pad2 31 ++ '.' :: pad3 500) = strChars "02:31.500" := by
    decide
  rw [e] at h
  norm_num at h
  exact h

/-- Claim C4 (amended): for every three-field timestamp token
`HH:MM:SS.mmm` with `MM`, `SS` exactly-2-digit values at most 59 and `mmm`
exactly 3 digits, where the hours field is any non-empty digit run whose
value (together with the total millisecond count) fits in a `u64`,
`parse_timestamp` succeeds and returns
`hours * 3600000 + minutes * 60000 + seconds * 1000 + millis`
milliseconds.  The hours field may have any digit count, but not any
magnitude: values of `2 ^ 64` or more abort the parse
(see `claim_C4_counterexample`). -/
theorem claim_C4 (hh : List Char) (m s ms : Nat) (hne : hh ≠ [])
    (hdig : ∀ c ∈ hh, c.isDigit = true) (hm : m ≤ 59) (hs : s ≤ 59) (hms : ms ≤ 999)
    (htot : ms + s * 1000 + m * 60000 + digitsToNat hh * 3600000 < U64) :
    parse_timestamp (hh ++ ':' :: (pad2 m ++ ':' :: (pad2 s ++ '.' :: pad3 ms))) =
      .ok (some (digitsToNat hh * 3600000 + m * 60000 + s * 1000 + ms, [])) := by
  have hm' : m < 100 := by omega
  have hs' : s < 100 := by omega
  have hms' : ms < 1000 := by omega
  have h1 := readDigits_append hdig (b := ':') (by decide)
    (pad2 m ++ ':' :: (pad2 s ++ '.' :: pad3 ms))
  have h2 := readDigits_append (pad2_digits hm') (b := ':') (by decide)
    (pad2 s ++ '.' :: pad3 ms)
  have h3 := readDigits_append (pad2_digits hs') (b := '.') (by decide) (pad3 ms)
  have h4 := readDigitsEof_all (pad3_digits hms')
  have hempty : hh.isEmpty = false := by
    cases hh with
    | nil => exact absurd rfl hne
    | cons a t => rfl
  have hov : ¬ (U64 ≤ digitsToNat hh) := by omega
  simp only [parse_timestamp, h1, h2, h3, hempty, digitsToNat_pad2 hm',
    digitsToNat_pad2 hs', if_neg hov]
  have hno59m : ¬ (59 < m) := by omega
  have hno59s : ¬ (59 < s) := by omega
  simp only [pad2, List.length_cons, List.length_nil, bne_self_eq_false,
    Bool.false_or, Bool.or_true, if_neg hno59m, if_neg hno59s]
  norm_num
  simp only [finishTs, h4]
  have hlen : ((pad3 ms).length != 3) = false := by simp [pad3]
  have hcomm : ms + s * 1000 + m * 60000 + digitsToNat hh * 3600000 =
      digitsToNat hh * 3600000 + m * 60000 + s * 1000 + ms := by omega
  simp only [bne_self_eq_false, Bool.false_eq_true, if_false, hlen,
    List.cons_append, List.nil_append, digitsToNat_pad3 hms',
    if_neg (show ¬ (U64 ≤ ms + s * 1000 + m * 60000 + digitsToNat hh * 3600000) by omega),
    hcomm]
  rw [if_neg (show ¬ (U64 ≤ digitsToNat hh * 3600000 + m * 60000 + s * 1000 + ms) by
    omega)]

/-- Counterexample to claim C4 as stated: the hours field does not admit
values of arbitrary magnitude.  In the token
`18446744073709551616:00:00.000` the minutes and seconds are exactly-2-digit
values at most 59 and the milliseconds are exactly 3 digits, but the hours
value is `2 ^ 64`, so `str::parse::<u64>().unwrap()` at lib.rs line 260
aborts instead of returning
`hours * 3600000 + minutes * 60000 + seconds * 1000 + millis`. -/
theorem claim_C4_counterexample :
    parse_timestamp (strChars "18446744073709551616:00:00.000") =
      .error .intOverflow := by rfl

/-- Witness for claim C4 at the three-digit hours token `111:02:31.500`
(`111 * 3600000 + 2 * 60000 + 31 * 1000 + 500 = 399751500`). -/
theorem claim_C4_witness :
    parse_timestamp (strChars "111:02:31.500") = .ok (some (399751500, [])) := by
  have h := claim_C4 (strChars "111") 2 31 500 (by decide) (by decide)
    (by norm_num) (by norm_num) (by norm_num) (by decide)
  have e : strChars "111" ++ ':' :: (pad2 2 ++ ':' :: (pad2 31 ++ '.' :: pad3 500)) =
      strChars "111:02:31.500" := by decide
  rw [e] at h
  have e2 : digitsToNat (strChars "111") = 111 := by decide
  rw [e2] at h
  norm_num at h
  exact h

/-! ### Settings-fold lemmas -/

theorem applySetting_region (s : CueSettings) (tok : List Char) :
    (applySetting s tok).region =
      match regionVal tok with
      | some v => some v
      | none => s.region := by
  cases h : splitOnceColon tok with
  | none => simp [applySetting, regionVal, h]
  | some kv =>
    obtain ⟨key, value⟩ := kv
    simp only [applySetting, regionVal, h]
    split_ifs <;> rfl

theorem applySetting_direction (s : CueSettings) (tok : List Char) :
    (applySetting s tok).writing_direction =
      match vertVal tok with
      | some d => d
      | none => s.writing_direction := by
  cases h : splitOnceColon tok with
  | none => simp [applySetting, vertVal, h]
  | some kv =>
    obtain ⟨key, value⟩ := kv
    simp only [applySetting, vertVal, h]
    split_ifs <;> rfl

theorem foldl_applySetting_region (s : CueSettings) (toks : List (List Char)) :
    (toks.foldl applySetting s).region =
      match (toks.filterMap regionVal).getLast? with
      | some v => some v
      | none => s.region := by
  induction toks using List.reverseRecOn with
  | nil => rfl
  | append_singleton l a ih =>
    rw [List.foldl_append, List.foldl_cons, List.foldl_nil, applySetting_region,
      List.filterMap_append]
    cases ha : regionVal a with
    | some v => simp [ha, List.filterMap]
    | none => simp [ha, List.filterMap, ih]

theorem foldl_applySetting_direction (s : CueSettings) (toks : List (List Char)) :
    (toks.foldl applySetting s).writing_direction =
      match (toks.filterMap vertVal).getLast? with
      | some d => d
      | none => s.writing_direction := by
  induction toks using List.reverseRecOn with
  | nil => rfl
  | append_singleton l a ih =>
    rw [List.foldl_append, List.foldl_cons, List.foldl_nil, applySetting_direction,
      List.filterMap_append]
    cases ha : vertVal a with
    | some v => simp [ha, List.filterMap]
    | none => simp [ha, List.filterMap, ih]

/-- Claim C10: the settings accumulated by the token loop of
`parse_settings` (before the vertical-clears-region post-pass) keep, for
each key, the value of the last (rightmost) valid occurrence in the
space-split token list: the accumulated region is the value of the last
valid `region:` token (absent when there is none), and the accumulated
writing direction is that of the last valid `vertical:` token
(`Horizontal` when there is none). -/
theorem claim_C10 (line : List Char) :
    (settingsAccum line).region =
      ((splitOnChar ' ' line).filterMap regionVal).getLast? ∧
    (settingsAccum line).writing_direction =
      (((splitOnChar ' ' line).filterMap vertVal).getLast?).getD .Horizontal := by
  constructor
  · rw [settingsAccum, foldl_applySetting_region]
    cases ((splitOnChar ' ' line).filterMap regionVal).getLast? <;> rfl
  · rw [settingsAccum, foldl_applySetting_direction]
    cases ((splitOnChar ' ' line).filterMap vertVal).getLast? <;> rfl

theorem parse_settings_inv (l : List Char) : settingsInv (parse_settings l) := by
  unfold settingsInv parse_settings
  by_cases h : (settingsAccum l).writing_direction ≠ WritingDirection.Horizontal
  · rw [if_pos h]; intro _; rfl
  · rw [if_neg h]; intro hdir; exact absurd hdir h

theorem pcts_inv {l : List Char} {a b : Nat} {st : CueSettings}
    (h : parse_cue_timings_settings l = .ok (some (a, b, st))) : settingsInv st := by
  unfold parse_cue_timings_settings at h
  repeat' split at h
  all_goals simp_all
  obtain ⟨-, -, h3⟩ := h
  rw [← h3]
  exact parse_settings_inv _

theorem blockStepCore_cueInv {fctx : FileContext} {bctx : BlockContext} {line : List Char}
    {bctx' : BlockContext} {brk : Bool}
    (hc : cueOptInv bctx.cue)
    (h : blockStepCore fctx bctx line = .ok (bctx', brk)) : cueOptInv bctx'.cue := by
  unfold blockStepCore at h
  repeat' split at h
  all_goals (try exact Except.noConfusion h)
  all_goals (rw [Except.ok.injEq, Prod.mk.injEq] at h; obtain ⟨h1, -⟩ := h; rw [← h1])
  all_goals (try exact hc)
  exact pcts_inv (by assumption)

theorem blockStep_cueInv {fctx : FileContext} {bctx : BlockContext} {line : List Char}
    {isLast : Bool} {bctx' : BlockContext} {brk : Bool}
    (hc : cueOptInv bctx.cue)
    (h : blockStep fctx bctx line isLast = .ok (bctx', brk)) : cueOptInv bctx'.cue := by
  unfold blockStep at h
  refine blockStepCore_cueInv ?_ h
  exact hc

theorem parseBlockLoop_cueInv :
    ∀ (lines : List (List Char)) (fctx : FileContext) (bctx bctx' : BlockContext)
      (rest : List (List Char)), cueOptInv bctx.cue →
      parseBlockLoop fctx bctx lines = .ok (bctx', rest) → cueOptInv bctx'.cue := by
  intro lines
  induction lines with
  | nil =>
    intro fctx bctx bctx' rest hc h
    rw [parseBlockLoop, Except.ok.injEq, Prod.mk.injEq] at h
    obtain ⟨h1, -⟩ := h
    rw [← h1]; exact hc
  | cons l ls ih =>
    intro fctx bctx bctx' rest hc h
    rw [parseBlockLoop] at h
    cases hs : blockStep fctx bctx l ls.isEmpty with
    | error p => simp only [hs] at h; exact Except.noConfusion h
    | ok r =>
      obtain ⟨b2, brk⟩ := r
      simp only [hs] at h
      by_cases hbrk : brk = true
      · rw [if_pos hbrk, Except.ok.injEq, Prod.mk.injEq] at h
        obtain ⟨h1, -⟩ := h
        rw [← h1]
        exact blockStep_cueInv hc hs
      · rw [if_neg hbrk] at h
        exact ih fctx b2 bctx' rest (blockStep_cueInv hc hs) h

theorem parse_block_blockInv {lines : List (List Char)} {fctx : FileContext}
    {b : Block} {rest : List (List Char)}
    (h : parse_block lines fctx = .ok (some b, rest)) : blockInv b := by
  unfold parse_block at h
  cases hl : parseBlockLoop fctx
      { line_count := 0, seen_eof := false, seen_arrow := false,
        cue := none, buffer := [] } lines with
  | error p => simp only [hl] at h; exact Except.noConfusion h
  | ok r =>
    obtain ⟨bctx, rest0⟩ := r
    simp only [hl] at h
    have hcue : cueOptInv bctx.cue :=
      parseBlockLoop_cueInv lines fctx
        { line_count := 0, seen_eof := false, seen_arrow := false,
          cue := none, buffer := [] } bctx rest0 (by exact trivial) hl
    cases hc : bctx.cue with
    | none => simp only [hc] at h; simp at h
    | some cue =>
      simp only [hc, Except.ok.injEq, Prod.mk.injEq, Option.some.injEq] at h
      obtain ⟨h1, -⟩ := h
      rw [← h1]
      rw [hc] at hcue
      exact hcue

theorem parseBlocksFuel_blockInv :
    ∀ (fuel : Nat) (lines : List (List Char)) (acc blocks : List Block)
      (fctx : FileContext), (∀ b ∈ acc, blockInv b) →
      parseBlocksFuel fctx fuel lines acc = .ok blocks →
      ∀ b ∈ blocks, blockInv b := by
  intro fuel
  induction fuel with
  | zero =>
    intro lines acc blocks fctx hacc h
    cases lines with
    | nil =>
      rw [parseBlocksFuel, Except.ok.injEq] at h
      rw [← h]; exact hacc
    | cons l ls => rw [parseBlocksFuel] at h; exact Except.noConfusion h
  | succ n ih =>
    intro lines acc blocks fctx hacc h
    cases lines with
    | nil =>
      rw [parseBlocksFuel, Except.ok.injEq] at h
      rw [← h]; exact hacc
    | cons l ls =>
      rw [parseBlocksFuel] at h
      cases hp : parse_block (l :: ls) fctx with
      | error p => simp only [hp] at h; exact Except.noConfusion h
      | ok r =>
        obtain ⟨ob, remaining⟩ := r
        simp only [hp] at h
        cases ob with
        | some b0 =>
          refine ih (skip_blank_lines remaining) (acc ++ [b0]) blocks fctx ?_ h
          intro b hb
          rcases List.mem_append.mp hb with hb' | hb'
          · exact hacc b hb'
          · rw [List.mem_singleton.mp hb']
            exact parse_block_blockInv hp
        | none => exact ih (skip_blank_lines remaining) acc blocks fctx hacc h

theorem parse_file_blockInv {input : List Char} {f : File}
    (h : parse_file input = .ok f) : ∀ b ∈ f.blocks, blockInv b := by
  unfold parse_file at h
  cases hh : parseHeader input with
  | error e => simp only [hh] at h; exact Outcome.noConfusion h
  | ok r =>
    obtain ⟨d, restLines⟩ := r
    simp only [hh] at h
    cases hd : parseBlocksFuel { in_header := false, seen_cue := false }
        (skip_blank_lines restLines).length (skip_blank_lines restLines) [] with
    | error p => simp only [hd] at h; exact Outcome.noConfusion h
    | ok blocks =>
      simp only [hd, Outcome.ok.injEq] at h
      have hblocks : ∀ b ∈ blocks, blockInv b :=
        parseBlocksFuel_blockInv _ _ [] blocks _ (by simp) hd
      rw [← h]
      exact hblocks

/-- Claim C8: for every input text, the `CueSettings` value returned by
`parse_settings` satisfies the invariant that a non-`Horizontal` writing
direction forces an absent region, even when a `region:VALUE` token was
present; consequently every cue block of a document returned by
`parse_file` satisfies the same invariant. -/
theorem claim_C8 :
    (∀ line : List Char,
      (parse_settings line).writing_direction ≠ WritingDirection.Horizontal →
        (parse_settings line).region = none) ∧
    (∀ (input : List Char) (f : File), parse_file input = .ok f →
      ∀ b ∈ f.blocks, ∀ c : Cue, b = Block.Cue c →
        c.settings.writing_direction ≠ WritingDirection.Horizontal →
          c.settings.region = none) := by
  constructor
  · intro line
    exact parse_settings_inv line
  · intro input f hf b hb c hc
    have := parse_file_blockInv hf b hb
    rw [hc] at this
    exact this

/-- Witness for claim C8: the settings text `region:fred vertical:rl`
resolves to a non-horizontal writing direction, and its region is absent
even though a `region:` token was present; likewise for a parsed document
whose only cue carries `vertical:lr`. -/
theorem claim_C8_witness :
    (parse_settings (strChars "region:fred vertical:rl")).region = none ∧
    ({ start := 1000, end_ := 2000, id := [], text := strChars "Hello", settings := { region := none, writing_direction := .VerticalLeft } } : Cue).settings.region = none := by
  constructor
  · exact claim_C8.1 (strChars "region:fred vertical:rl") (by decide)
  · exact claim_C8.2
      (strChars "WEBVTT\n\n00:00:01.000 --> 00:00:02.000 vertical:lr\nHello")
      { description := none, blocks := [Block.Cue { start := 1000, end_ := 2000, id := [], text := strChars "Hello", settings := { region := none, writing_direction := .VerticalLeft } }] }
      (by rfl)
      (Block.Cue { start := 1000, end_ := 2000, id := [], text := strChars "Hello", settings := { region := none, writing_direction := .VerticalLeft } })
      (List.mem_singleton.mpr rfl)
      { start := 1000, end_ := 2000, id := [], text := strChars "Hello", settings := { region := none, writing_direction := .VerticalLeft } }
      rfl
      (by decide)

/-- Claim C3 (amended): a line containing `-->` that is not an eligible
timing candidate (it is on line 3 or later of the block, or a timing
candidate was already seen) is ignored entirely: the per-line step leaves
the block context unchanged (in particular the line is not appended to the
accumulated buffer, so it contributes nothing to the cue id or body text)
and does not end the block. -/
theorem claim_C3 (fctx : FileContext) (bctx : BlockContext) (line : List Char)
    (hin : fctx.in_header = false)
    (harrow : containsArrow line = true)
    (hno : ¬(bctx.line_count = 1 ∨ (bctx.line_count = 2 ∧ bctx.seen_arrow = false))) :
    blockStepCore fctx bctx line = .ok (bctx, false) := by
  have hcond : (bctx.line_count == 1 || (bctx.line_count == 2 && !bctx.seen_arrow)) = false := by
    rcases not_or.mp hno with ⟨h1, h2⟩
    simp only [Bool.or_eq_false_iff, Bool.and_eq_false_iff]
    constructor
    · simp [Nat.beq_eq_true_eq, h1]
    · by_cases hb : bctx.line_count = 2
      · right
        simp only [Bool.not_eq_false']
        cases hsa : bctx.seen_arrow with
        | true => rfl
        | false => exact absurd ⟨hb, hsa⟩ h2
      · left
        simp [hb]
  unfold blockStepCore
  simp only [harrow, hin, Bool.not_false, if_true, hcond, Bool.false_eq_true, if_false]

/-- Witness for claim C3: with an arrow line as line 3 of a block, the
step leaves the context untouched and continues the block. -/
theorem claim_C3_witness :
    blockStepCore { seen_cue := false, in_header := false }
      { line_count := 3, seen_eof := false, seen_arrow := false, cue := none, buffer := strChars "a" }
      (strChars "x --> y") =
    .ok ({ line_count := 3, seen_eof := false, seen_arrow := false, cue := none, buffer := strChars "a" }, false) :=
  claim_C3 _ _ _ rfl (by decide) (by decide)

/-- Counterexample to claim C3 as stated: in the block
`00:00:01.000 --> 00:00:02.000` / `a` / `x --> y` / `b`, the ineligible
arrow line `x --> y` (line 3) is NOT appended to the buffer: the resulting
cue text is `a\nb`, not `a\nx --> y\nb`.  The source reaches neither the
blank-line branch nor the text branch for such a line (lib.rs lines
131-152 end without any buffer push). -/
theorem claim_C3_counterexample :
    parse_block [strChars "00:00:01.000 --> 00:00:02.000", strChars "a", strChars "x --> y", strChars "b"]
      { seen_cue := false, in_header := false } =
    .ok (some (Block.Cue { start := 1000, end_ := 2000, id := [], text := strChars "a\nb", settings := { region := none, writing_direction := .Horizontal } }), []) := by
  rfl

/-- Claim C5 (amended): for a block whose first line starts with `STYLE`
(resp. `REGION`) followed by a second non-blank ordinary line, when no cue
has been seen, the block recognizer signals the condition with a distinct
per-feature abnormal termination (the `unimplemented!` abort of lib.rs
lines 159/163) rather than silently dropping the block; the signal is an
abort of the whole parse, not a returned error value
(see `claim_C5_counterexample`). -/
theorem claim_C5 (fctx : FileContext) (bctx : BlockContext) (line : List Char)
    (hin : fctx.in_header = false) (hseen : fctx.seen_cue = false)
    (hcount : bctx.line_count = 2)
    (harrow : containsArrow line = false) (hne : line.isEmpty = false) :
    (startsWithList (strChars "STYLE") bctx.buffer = true →
      blockStepCore fctx bctx line = .error .styleUnimplemented) ∧
    (startsWithList (strChars "STYLE") bctx.buffer = false →
      startsWithList (strChars "REGION") bctx.buffer = true →
      blockStepCore fctx bctx line = .error .regionUnimplemented) := by
  unfold blockStepCore
  simp only [harrow, Bool.false_eq_true, if_false, hne, hin, hseen, hcount,
    Bool.not_false, Bool.and_true, Bool.true_and, beq_self_eq_true, if_true]
  constructor
  · intro hS
    simp [hS]
  · intro hS hR
    simp [hS, hR]

/-- Witness for claim C5: a block whose first line is `STYLE` aborts with
the style signal, and one whose first line is `REGION r` aborts with the
region signal. -/
theorem claim_C5_witness :
    blockStepCore { seen_cue := false, in_header := false }
      { line_count := 2, seen_eof := false, seen_arrow := false, cue := none, buffer := strChars "STYLE" }
      (strChars "x") = .error .styleUnimplemented ∧
    blockStepCore { seen_cue := false, in_header := false }
      { line_count := 2, seen_eof := false, seen_arrow := false, cue := none, buffer := strChars "REGION r" }
      (strChars "x") = .error .regionUnimplemented := by
  constructor
  · exact (claim_C5 _ _ _ rfl rfl rfl (by decide) (by decide)).1 (by decide)
  · exact (claim_C5 _ _ _ rfl rfl rfl (by decide) (by decide)).2 (by decide) (by decide)

/-- Counterexample to claim C5 as stated: for the document
`WEBVTT\n\nSTYLE\nx` (a pre-cue STYLE block with a second non-blank line),
`parse_file` does not return a dedicated error value the caller can
handle: it aborts the whole parse (the `unimplemented!` at lib.rs line
159), modelled as a `panic` outcome which is not an `err` outcome. -/
theorem claim_C5_counterexample :
    Outcome.isErr (parse_file (strChars "WEBVTT\n\nSTYLE\nx")) = false ∧
    parse_file (strChars "WEBVTT\n\nSTYLE\nx") = .panic .styleUnimplemented := by
  exact ⟨rfl, rfl⟩

/-- Claim C1 (amended): for every input whose first line is a valid
signature line (the header phase succeeds), `parse_file` never returns an
error: the outcome is either an assembled `File` or, for blocks that reach
the STYLE/REGION stop or a timestamp integer-parse overflow, an abnormal
termination — unrecognized or malformed blocks are otherwise dropped, not
errored (see `claim_C1_counterexample` for the abort case). -/
theorem claim_C1 (input : List Char) (hd : Option (List Char) × List (List Char))
    (h : parseHeader input = .ok hd) : Outcome.isErr (parse_file input) = false := by
  obtain ⟨d, rl⟩ := hd
  unfold parse_file
  simp only [h]
  cases hdrv : parseBlocksFuel { in_header := false, seen_cue := false }
      (skip_blank_lines rl).length (skip_blank_lines rl) [] with
  | error p => rfl
  | ok blocks => rfl

/-- Witness for claim C1: the document `WEBVTT\n\nhello` has a valid
signature line and parses without a returned error. -/
theorem claim_C1_witness :
    parseHeader (strChars "WEBVTT\n\nhello") = .ok (none, [[], strChars "hello"]) ∧
    Outcome.isErr (parse_file (strChars "WEBVTT\n\nhello")) = false :=
  ⟨rfl, claim_C1 _ _ rfl⟩

/-- Counterexample to claim C1 as stated: the document `WEBVTT\n\nREGION\ny`
has a valid signature line, yet `parse_file` does not return an assembled
`File`: the pre-cue REGION block aborts the parse (the `unimplemented!` at
lib.rs line 163) instead of being dropped. -/
theorem claim_C1_counterexample :
    parseHeader (strChars "WEBVTT\n\nREGION\ny") = .ok (none, [[], strChars "REGION", strChars "y"]) ∧
    parse_file (strChars "WEBVTT\n\nREGION\ny") = .panic .regionUnimplemented :=
  ⟨rfl, rfl⟩

/-- Claim C2 (the code violates it): the `seen_cue` flag is never set to
`true` by any code path, so the STYLE/REGION inspection is NOT restricted
to documents in which no cue has been seen: in the document
`WEBVTT\n\n00:00:01.000 --> 00:00:02.000\nHi\n\nSTYLE\nx` a cue block has
already been emitted, and the later STYLE block is still signalled as an
unimplemented feature (the parse aborts). -/
theorem claim_C2 :
    parse_file (strChars "WEBVTT\n\n00:00:01.000 --> 00:00:02.000\nHi\n\nSTYLE\nx") =
      .panic .styleUnimplemented := by
  rfl

theorem expect_str_error {i p : List Char} {e0 e : Error}
    (h : expect_str i p e0 = .error e) : e = e0 := by
  unfold expect_str at h
  cases hs : stripPrefixList p i with
  | some r => simp [hs] at h
  | none =>
    simp only [hs, Except.error.injEq] at h
    exact h.symm

theorem expect_char_error {i pat : List Char} {e0 e : Error}
    (h : expect_char i pat e0 = .error e) : e = e0 := by
  cases i with
  | nil =>
    simp only [expect_char, Except.error.injEq] at h
    exact h.symm
  | cons c rest =>
    simp only [expect_char] at h
    by_cases hc : (pat.contains c) = true
    · rw [if_pos hc] at h
      exact Except.noConfusion h
    · rw [if_neg hc] at h
      injection h with h2
      exact h2.symm

theorem parseDescription_error {line : List Char} {e : Error}
    (h : parseDescription line = .error e) : e = Error.BadHeader := by
  unfold parseDescription at h
  by_cases hl : 0 < line.length
  · rw [if_pos hl] at h
    cases hc : expect_char line [' ', '\t'] Error.BadHeader with
    | error e2 =>
      simp only [hc, Except.error.injEq] at h
      rw [← h]
      exact expect_char_error hc
    | ok rest => simp [hc] at h
  · rw [if_neg hl] at h
    exact Except.noConfusion h

theorem parseHeader_error {input : List Char} {e : Error}
    (h : parseHeader input = .error e) : e = Error.NoMagic ∨ e = Error.BadHeader := by
  unfold parseHeader at h
  cases hsp : splitOnChar '\n' input with
  | nil =>
    simp only [hsp, Except.error.injEq] at h
    left; exact h.symm
  | cons first restLines =>
    simp only [hsp] at h
    cases hes : expect_str first (strChars "WEBVTT") Error.NoMagic with
    | error e2 =>
      simp only [hes, Except.error.injEq] at h
      left; rw [← h]; exact expect_str_error hes
    | ok line =>
      simp only [hes] at h
      cases hpd : parseDescription line with
      | error e2 =>
        simp only [hpd, Except.error.injEq] at h
        right; rw [← h]; exact parseDescription_error hpd
      | ok d => simp [hpd] at h

theorem parse_file_err_cases {input : List Char} {e : Error}
    (h : parse_file input = .err e) : e = Error.NoMagic ∨ e = Error.BadHeader := by
  unfold parse_file at h
  cases hh : parseHeader input with
  | error e0 =>
    simp only [hh, Outcome.err.injEq] at h
    rw [← h]
    exact parseHeader_error hh
  | ok r =>
    obtain ⟨d, rl⟩ := r
    simp only [hh] at h
    cases hd : parseBlocksFuel { in_header := false, seen_cue := false }
        (skip_blank_lines rl).length (skip_blank_lines rl) [] with
    | error p => simp only [hd] at h; exact Outcome.noConfusion h
    | ok blocks => simp only [hd] at h; exact Outcome.noConfusion h

/-- Claim C6 (amended): `UnexpectedEof` is declared (lib.rs line 17) but no
code path produces it — splitting on line feeds always yields at least one
line, so the `ok_or(UnexpectedEof)`-style header failure can never occur;
the only document-fatal errors `parse_file` can return are `NoMagic` and
`BadHeader`. -/
theorem claim_C6 : ∀ (input : List Char) (e : Error),
    parse_file input = .err e → e = Error.NoMagic ∨ e = Error.BadHeader :=
  fun _ _ h => parse_file_err_cases h

/-- Witness for claim C6: the document `x` fails with `NoMagic`, which is
one of the two producible errors. -/
theorem claim_C6_witness :
    parse_file (strChars "x") = .err Error.NoMagic ∧
    (Error.NoMagic = Error.NoMagic ∨ Error.NoMagic = Error.BadHeader) :=
  ⟨rfl, claim_C6 (strChars "x") Error.NoMagic rfl⟩

/-- Counterexample to claim C6 as stated: there is NO input for which
`parse_file` fails with `UnexpectedEof` — the indicator of that failure
mode is the constantly-false function, so the variant is dead. -/
theorem claim_C6_counterexample :
    (fun input : List Char => Outcome.isUnexpectedEof (parse_file input)) =
      (fun _ : List Char => false) := by
  funext input
  cases ho : parse_file input with
  | ok f => rfl
  | panic p => rfl
  | err e =>
    rcases parse_file_err_cases ho with rfl | rfl <;> rfl

/-! ### Termination lemmas: the driver loop strictly shrinks the cursor -/

theorem skip_blank_lines_length :
    ∀ lines : List (List Char), (skip_blank_lines lines).length ≤ lines.length := by
  intro lines
  induction lines with
  | nil => exact Nat.le_refl _
  | cons l ls ih =>
    rw [skip_blank_lines]
    by_cases hl : l.isEmpty = true
    · rw [if_pos hl]
      exact Nat.le_succ_of_le ih
    · rw [if_neg hl]

theorem parseBlockLoop_length :
    ∀ (lines : List (List Char)) (fctx : FileContext) (bctx bctx' : BlockContext)
      (rest : List (List Char)),
      parseBlockLoop fctx bctx lines = .ok (bctx', rest) →
      rest.length ≤ lines.length := by
  intro lines
  induction lines with
  | nil =>
    intro fctx bctx bctx' rest h
    rw [parseBlockLoop, Except.ok.injEq, Prod.mk.injEq] at h
    obtain ⟨-, h2⟩ := h
    rw [← h2]
  | cons l ls ih =>
    intro fctx bctx bctx' rest h
    rw [parseBlockLoop] at h
    cases hs : blockStep fctx bctx l ls.isEmpty with
    | error p => simp only [hs] at h; exact Except.noConfusion h
    | ok r =>
      obtain ⟨b2, brk⟩ := r
      simp only [hs] at h
      by_cases hbrk : brk = true
      · rw [if_pos hbrk, Except.ok.injEq, Prod.mk.injEq] at h
        obtain ⟨-, h2⟩ := h
        rw [← h2]
        exact Nat.le_succ _
      · rw [if_neg hbrk] at h
        exact Nat.le_succ_of_le (ih fctx b2 bctx' rest h)

theorem parse_block_rest {lines : List (List Char)} {fctx : FileContext}
    {ob : Option Block} {rest : List (List Char)}
    (h : parse_block lines fctx = .ok (ob, rest)) :
    ∃ bctx', parseBlockLoop fctx
      { line_count := 0, seen_eof := false, seen_arrow := false,
        cue := none, buffer := [] } lines = .ok (bctx', rest) := by
  unfold parse_block at h
  cases hl : parseBlockLoop fctx
      { line_count := 0, seen_eof := false, seen_arrow := false,
        cue := none, buffer := [] } lines with
  | error p => simp only [hl] at h; exact Except.noConfusion h
  | ok r =>
    obtain ⟨bctx, rest0⟩ := r
    simp only [hl] at h
    cases hc : bctx.cue with
    | none =>
      simp only [hc, Except.ok.injEq, Prod.mk.injEq] at h
      obtain ⟨-, h2⟩ := h
      rw [← h2]
      exact ⟨bctx, rfl⟩
    | some cue =>
      simp only [hc, Except.ok.injEq, Prod.mk.injEq] at h
      obtain ⟨-, h2⟩ := h
      rw [← h2]
      exact ⟨bctx, rfl⟩

theorem parse_block_consumes {lines : List (List Char)} {fctx : FileContext}
    {ob : Option Block} {rest : List (List Char)}
    (h : parse_block lines fctx = .ok (ob, rest)) (hne : lines ≠ []) :
    rest.length < lines.length := by
  obtain ⟨bctx', hl⟩ := parse_block_rest h
  cases lines with
  | nil => exact absurd rfl hne
  | cons l ls =>
    rw [parseBlockLoop] at hl
    cases hs : blockStep fctx
        { line_count := 0, seen_eof := false, seen_arrow := false,
          cue := none, buffer := [] } l ls.isEmpty with
    | error p => simp only [hs] at hl; exact Except.noConfusion hl
    | ok r =>
      obtain ⟨b2, brk⟩ := r
      simp only [hs] at hl
      by_cases hbrk : brk = true
      · rw [if_pos hbrk, Except.ok.injEq, Prod.mk.injEq] at hl
        obtain ⟨-, h2⟩ := hl
        rw [← h2]
        exact Nat.lt_succ_of_le (Nat.le_refl _)
      · rw [if_neg hbrk] at hl
        exact Nat.lt_succ_of_le (parseBlockLoop_length ls fctx b2 bctx' rest hl)

/-! ### The fuel sentinel of the embedding is unreachable -/

theorem finishTs_ne_fuel (places : List Nat) (lc : Char) (rest : List Char) :
    finishTs places lc rest ≠ .error .fuelExhausted := by
  unfold finishTs
  repeat' split
  all_goals try simp
  all_goals repeat' split
  all_goals simp

theorem parse_timestamp_ne_fuel (line : List Char) :
    parse_timestamp line ≠ .error .fuelExhausted := by
  unfold parse_timestamp
  repeat' split
  all_goals try simp
  all_goals (repeat' split)
  all_goals first
    | simp
    | exact finishTs_ne_fuel _ _ _

theorem pcts_ne_fuel (line : List Char) :
    parse_cue_timings_settings line ≠ .error .fuelExhausted := by
  unfold parse_cue_timings_settings
  repeat' split
  all_goals try simp
  all_goals (intro hx; subst hx)
  all_goals exact parse_timestamp_ne_fuel _ (by assumption)

theorem blockStepCore_ne_fuel (fctx : FileContext) (bctx : BlockContext)
    (line : List Char) : blockStepCore fctx bctx line ≠ .error .fuelExhausted := by
  unfold blockStepCore
  repeat' split
  all_goals try simp
  all_goals (intro hx; subst hx)
  all_goals exact pcts_ne_fuel _ (by assumption)

theorem blockStep_ne_fuel (fctx : FileContext) (bctx : BlockContext)
    (line : List Char) (isLast : Bool) :
    blockStep fctx bctx line isLast ≠ .error .fuelExhausted := by
  unfold blockStep
  exact blockStepCore_ne_fuel _ _ _

theorem parseBlockLoop_ne_fuel :
    ∀ (lines : List (List Char)) (fctx : FileContext) (bctx : BlockContext),
      parseBlockLoop fctx bctx lines ≠ .error .fuelExhausted := by
  intro lines
  induction lines with
  | nil => intro fctx bctx; rw [parseBlockLoop]; simp
  | cons l ls ih =>
    intro fctx bctx
    rw [parseBlockLoop]
    cases hs : blockStep fctx bctx l ls.isEmpty with
    | error p =>
      intro hx
      injection hx with hx2
      subst hx2
      exact blockStep_ne_fuel fctx bctx l ls.isEmpty hs
    | ok r =>
      obtain ⟨b2, brk⟩ := r
      by_cases hbrk : brk = true
      · simp [hbrk]
      · simp only [hbrk, Bool.false_eq_true, if_false]
        exact ih fctx b2

theorem parse_block_ne_fuel (lines : List (List Char)) (fctx : FileContext) :
    parse_block lines fctx ≠ .error .fuelExhausted := by
  unfold parse_block
  cases hl : parseBlockLoop fctx
      { line_count := 0, seen_eof := false, seen_arrow := false,
        cue := none, buffer := [] } lines with
  | error p =>
    intro hx
    injection hx with hx2
    subst hx2
    exact parseBlockLoop_ne_fuel lines fctx _ hl
  | ok r =>
    obtain ⟨bctx, rest0⟩ := r
    simp only [hl]
    cases hc : bctx.cue <;> simp [hc]

theorem parseBlocksFuel_ne_fuel :
    ∀ (fuel : Nat) (lines : List (List Char)) (acc : List Block)
      (fctx : FileContext), lines.length ≤ fuel →
      parseBlocksFuel fctx fuel lines acc ≠ .error .fuelExhausted := by
  intro fuel
  induction fuel with
  | zero =>
    intro lines acc fctx hle
    cases lines with
    | nil => rw [parseBlocksFuel]; simp
    | cons l ls => simp at hle
  | succ n ih =>
    intro lines acc fctx hle
    cases lines with
    | nil => rw [parseBlocksFuel]; simp
    | cons l ls =>
      rw [parseBlocksFuel]
      cases hp : parse_block (l :: ls) fctx with
      | error p =>
        intro hx
        injection hx with hx2
        subst hx2
        exact parse_block_ne_fuel (l :: ls) fctx hp
      | ok r =>
        obtain ⟨ob, remaining⟩ := r
        have hlt : remaining.length < (l :: ls).length :=
          parse_block_consumes hp (by simp)
        have hle' : (skip_blank_lines remaining).length ≤ n := by
          have := skip_blank_lines_length remaining
          simp only [List.length_cons] at hlt hle
          omega
        cases ob with
        | some b0 => exact ih (skip_blank_lines remaining) (acc ++ [b0]) fctx hle'
        | none => exact ih (skip_blank_lines remaining) acc fctx hle'

theorem parse_file_ne_fuel (input : List Char) :
    Outcome.isFuelPanic (parse_file input) = false := by
  unfold parse_file
  cases hh : parseHeader input with
  | error e => simp only [hh]; rfl
  | ok r =>
    obtain ⟨d, rl⟩ := r
    simp only [hh]
    cases hd : parseBlocksFuel { in_header := false, seen_cue := false }
        (skip_blank_lines rl).length (skip_blank_lines rl) [] with
    | error p =>
      simp only [hd]
      have hne := parseBlocksFuel_ne_fuel (skip_blank_lines rl).length
        (skip_blank_lines rl) [] { in_header := false, seen_cue := false }
        (Nat.le_refl _)
      rw [hd] at hne
      cases p with
      | fuelExhausted => exact absurd rfl hne
      | styleUnimplemented => rfl
      | regionUnimplemented => rfl
      | intOverflow => rfl
      | unreachableCode => rfl
    | ok blocks => simp only [hd]; rfl

/-- Claim C9: `parse_file` terminates.  Every `parse_block` call on a
non-empty cursor consumes at least one line (the returned remainder is
strictly shorter), `skip_blank_lines` only drops lines (the remainder is
never longer), and consequently the driver loop — run with fuel equal to
the number of remaining lines — never exhausts its fuel: the fuel
sentinel of this embedding is unreachable for every input. -/
theorem claim_C9 :
    (∀ (lines : List (List Char)) (fctx : FileContext) (ob : Option Block)
       (rest : List (List Char)), parse_block lines fctx = .ok (ob, rest) →
       lines ≠ [] → rest.length < lines.length) ∧
    (∀ lines : List (List Char), (skip_blank_lines lines).length ≤ lines.length) ∧
    (∀ input : List Char, Outcome.isFuelPanic (parse_file input) = false) := by
  refine ⟨?_, ?_, ?_⟩
  · intro lines fctx ob rest h hne
    exact parse_block_consumes h hne
  · exact skip_blank_lines_length
  · exact parse_file_ne_fuel

/-- Witness for claim C9: parsing the one-line block `a` consumes that
line, leaving an empty remainder (0 < 1). -/
theorem claim_C9_witness :
    parse_block [strChars "a"] { seen_cue := false, in_header := false } = .ok (none, []) ∧
    ([] : List (List Char)).length < [strChars "a"].length :=
  ⟨rfl, claim_C9.1 [strChars "a"] { seen_cue := false, in_header := false } none [] rfl
    (by simp)⟩

end WebVTT
